import Mathlib

/-!
Shallow embedding of the job-orchestration layer of the xCell repository
(`run_cls.py` and `xcell/cls/tools.py`): skip-list matching, memory
estimation, workspace grouping, lock-file based batch selection, generated
batch scripts, node distribution, submission caps, and the workspace
save/read retry logic.

Python strings are Lean `String`s; the filesystem is a list of existing
file names; the external workspace object's `write_to`/`read_from` calls
are oracles mapping the attempt number to `none` (success) or
`some msg` (a `RuntimeError` carrying message `msg`).
-/

namespace XCell

/-- `List.isPrefixOf`-style check: does `p` occur as a contiguous segment of
`l`?  This models Python's `needle in haystack` substring test. -/
def hasSegChars (p : List Char) : List Char → Bool
  | [] => p.isEmpty
  | c :: rest => List.isPrefixOf p (c :: rest) || hasSegChars p rest

/-- Python's `needle in haystack` on strings (substring containment). -/
def hasSeg (needle hay : String) : Bool :=
  hasSegChars needle.data hay.data

/-- Python's `s.startswith('/')`. -/
def startsWithSlash (s : String) : Bool :=
  match s.data with
  | '/' :: _ => true
  | _ => false

/-- Python's `s.endswith('/')`. -/
def endsWithSlash (s : String) : Bool :=
  match s.data.getLast? with
  | some '/' => true
  | _ => false

/-- `os.path.join(a, b)` for the two-argument case. -/
def pathJoin (a b : String) : String :=
  if startsWithSlash b then b
  else if a = "" then b
  else if endsWithSlash a then a ++ b
  else a ++ "/" ++ b

/-- Python slice `l[a:b]` (for `0 ≤ a ≤ b`, with clamping). -/
def slicePy (l : List α) (a b : Nat) : List α :=
  (l.drop a).take (b - a)

/-- A covariance task: the ordered 4-tuple of tracer names passed around as
`trs` in `run_cls.py`. -/
structure Task4 where
  t1 : String
  t2 : String
  t3 : String
  t4 : String
deriving DecidableEq, Repr

/-- The tracers of a task as a list (Python iterates over `trs`). -/
def Task4.toList (t : Task4) : List String := [t.t1, t.t2, t.t3, t.t4]

/-- The configuration slice of the `Data` object that `run_cls.py` reads:
output directory, recompute flags, and the per-tracer lookups it delegates
to `data` (mask name, bare name, spin). -/
structure DataCfg where
  output : String
  recomputeCov : Bool
  recomputeCmcm : Bool
  recomputeCls : Bool
  recomputeMcm : Bool
  maskName : String → String
  bareName : String → String
  spin : String → Nat

/-- `check_skip(data, skip, trs)` from `run_cls.py`: walks the tracers,
returning `True` as soon as one is in `skip` by full name or by bare
name. -/
def check_skip (bare : String → String) (skip : List String) :
    List String → Bool
  | [] => false
  | tr :: rest =>
    if skip.contains tr then true
    else if skip.contains (bare tr) then true
    else check_skip bare skip rest

/-- Modelled from the spec: `Data.get_tracer_bare_name` lives in the `Data`
class, which is not under `src/`.  Per the spec's skip-list section and
glossary, the bare name of `SURVEY__0` is `SURVEY`: the identifier up to the
first `__` separator. -/
def bareChars : List Char → List Char
  | [] => []
  | '_' :: '_' :: _ => []
  | c :: rest => c :: bareChars rest

/-- Modelled from the spec: bare (group) name of a tracer identifier. -/
def bareNameSpec (tr : String) : String :=
  ⟨bareChars tr.data⟩

/-- The per-spin memory table `d` of `get_mem` in `run_cls.py`:
`none` both for an unknown `compute` mode (Python `ValueError`) and, inside
a table, for a spin outside `{0, 2}` (Python `KeyError`). -/
def memTable (compute : String) : Option (Nat → Option Nat) :=
  if compute = "cls" then
    some (fun s => if s = 0 then some 16 else if s = 2 then some 25 else none)
  else if compute = "cov" then
    some (fun s => if s = 0 then some 16 else if s = 2 then some 47 else none)
  else none

/-- The accumulation loop `mem += d[s]` of `get_mem`. -/
def sumMem (d : Nat → Option Nat) : List Nat → Option Nat
  | [] => some 0
  | s :: rest =>
    match d s, sumMem d rest with
    | some v, some m => some (v + m)
    | _, _ => none

/-- `get_mem(data, trs, compute)` from `run_cls.py`; `spin` stands for
`data.get_mapper(tr).get_spin()`. -/
def get_mem (spin : String → Nat) (trs : List String) (compute : String) :
    Option Nat :=
  match memTable compute with
  | none => none
  | some d => sumMem d (trs.map spin)

/-- Outcome of `save_wsp`/`read_wsp` in `xcell/cls/tools.py`: the returned
or raised result, the number of `write_to`/`read_from` calls made, and
whether `os.remove(fname)` was called. -/
inductive WspResult where
  | ok : WspResult
  | err : String → WspResult
deriving DecidableEq, Repr

structure WspOutcome where
  result : WspResult
  attempts : Nat
  removed : Bool
deriving DecidableEq, Repr

/-- `save_wsp(wsp, fname)` from `xcell/cls/tools.py`.  `fileIsThere` is
`os.path.isfile(fname)` at entry; `writeTo n` is the outcome of the
`(n+1)`-st `wsp.write_to(fname)` call (`none` = success, `some e` = a
`RuntimeError` with message `e`). -/
def save_wsp (fileIsThere : Bool) (writeTo : Nat → Option String) :
    WspOutcome :=
  if fileIsThere then ⟨WspResult.ok, 0, false⟩
  else
    match writeTo 0 with
    | none => ⟨WspResult.ok, 1, false⟩
    | some e =>
      if hasSeg "Error writing" e then
        match writeTo 1 with
        | none => ⟨WspResult.ok, 2, true⟩
        | some e2 => ⟨WspResult.err e2, 2, true⟩
      else ⟨WspResult.err e, 1, false⟩

/-- `read_wsp(wsp, fname, read_unbinned_MCM)` from `xcell/cls/tools.py`:
on a `RuntimeError` containing `Error reading` the file is removed and the
same error is re-raised; there is no second `read_from` call. -/
def read_wsp (readFrom : Nat → Option String) : WspOutcome :=
  match readFrom 0 with
  | none => ⟨WspResult.ok, 1, false⟩
  | some e =>
    if hasSeg "Error reading" e then ⟨WspResult.err e, 1, true⟩
    else ⟨WspResult.err e, 1, false⟩

/-- The relative workspace path of `get_jobs_with_same_cwsp`:
`cov/cw__{mask1}__{mask2}__{mask3}__{mask4}.fits`. -/
def cwRelPath (m1 m2 m3 m4 : String) : String :=
  "cov/cw__" ++ m1 ++ "__" ++ m2 ++ "__" ++ m3 ++ "__" ++ m4 ++ ".fits"

/-- The full workspace artifact path assigned to a covariance task by
`get_jobs_with_same_cwsp`: `os.path.join(data.data['output'], cwRelPath)`
with the masks of the four tracers taken in task order. -/
def cwFname (cfg : DataCfg) (t : Task4) : String :=
  pathJoin cfg.output
    (cwRelPath (cfg.maskName t.t1) (cfg.maskName t.t2)
      (cfg.maskName t.t3) (cfg.maskName t.t4))

/-- The final covariance output `cov/cov_{}_{}_{}_{}.npz` of a task. -/
def covOutFname (outdir : String) (t : Task4) : String :=
  pathJoin outdir
    ("cov/cov_" ++ t.t1 ++ "_" ++ t.t2 ++ "_" ++ t.t3 ++ "_" ++ t.t4
      ++ ".npz")

/-- The per-task command emitted into a batch script:
`/usr/bin/python3 -m xcell.cls.cov {INPUT} {t1} {t2} {t3} {t4}`. -/
def covCmd (input : String) (t : Task4) : String :=
  "/usr/bin/python3 -m xcell.cls.cov " ++ input ++ " " ++ t.t1 ++ " "
    ++ t.t2 ++ " " ++ t.t3 ++ " " ++ t.t4

/-- `recompute` as read in the covariance launchers:
`data.data['recompute']['cov'] or data.data['recompute']['cmcm']`. -/
def covRecompute (cfg : DataCfg) : Bool :=
  cfg.recomputeCov || cfg.recomputeCmcm

/-- The per-task `continue` condition inside the `trs_list` loop of
`launch_cov_batches2`: output file present with recomputation not forced,
or skip-list match. -/
def covTaskDropped (cfg : DataCfg) (fs skip : List String) (t : Task4) :
    Bool :=
  (fs.contains (covOutFname cfg.output t) && !covRecompute cfg)
    || check_skip cfg.bareName skip t.toList

/-- `covs_tbc` of `launch_cov_batches2`: commands for tasks of one
workspace group that still need computing. -/
def covsTbc (cfg : DataCfg) (fs skip : List String) (input : String)
    (trsList : List Task4) : List String :=
  (trsList.filter (fun t => !covTaskDropped cfg fs skip t)).map
    (covCmd input)

/-- One iteration of the group loop of `launch_cov_batches2` (cap apart):
skip the group if its lock file exists; otherwise compute `covs_tbc` and
skip if it is empty; otherwise emit `(cw, covs_tbc)` (the caller creates
`cw.lock` and writes the script). -/
def groupStep (cfg : DataCfg) (fs skip : List String) (input : String)
    (g : String × List Task4) : Option (String × List String) :=
  if fs.contains (g.1 ++ ".lock") then none
  else
    let tbc := covsTbc cfg fs skip input g.2
    if tbc = [] then none
    else some (g.1, tbc)

/-- The group-selection loop of `launch_cov_batches2`: iterate the groups
in order with budget `cap = njobs * nnodes`; on emission the lock file is
created (added to `fs`) and the budget decreases. -/
def selectGroups (cfg : DataCfg) (skip : List String) (input : String) :
    List String → Nat → List (String × List Task4) →
      List (String × List String)
  | _, _, [] => []
  | fs, cap, g :: rest =>
    if cap = 0 then []
    else
      match groupStep cfg fs skip input g with
      | none => selectGroups cfg skip input fs cap rest
      | some s =>
        s :: selectGroups cfg skip input (fs ++ [g.1 ++ ".lock"]) (cap - 1)
          rest

/-- The lines of the generated per-group batch script of
`launch_cov_batches2` for workspace `cw` and commands `cmds`
(`covs_tbc`). -/
def buildScript (cw : String) (cmds : List String) (removeCwsp : Bool) :
    List String :=
  ["#!/bin/bash"]
    ++ cmds.flatMap (fun covi => ["echo Running " ++ covi, covi])
    ++ ["echo Removing lock file: " ++ cw ++ ".lock",
        "rm " ++ cw ++ ".lock"]
    ++ (if removeCwsp then ["echo Removing " ++ cw, "rm " ++ cw] else [])
    ++ ["echo Finished running " ++ cmds.getLastD ""]

/-- Execution of a generated script under bash's default semantics (the
scripts set no `-e` flag and use no conditionals): every line runs in
order, whether or not earlier lines failed.  `fails` tells which commands
fail; the trace records each executed line with its failure status. -/
def runScript (script : List String) (fails : String → Bool) :
    List (String × Bool) :=
  match script with
  | [] => []
  | l :: rest => (l, fails l) :: runScript rest fails

/-- The in-loop reassignment of `njobs` in the node loop of
`launch_cov_batches2`: `if njobs > n_total_jobs / nnodes:
njobs = int(n_total_jobs / nnodes + 1)`; the reassigned value is a fixed
point of the update, so every node iteration uses this value. -/
def njobsEff (njobs nnodes nTotal : Nat) : Nat :=
  if njobs * nnodes > nTotal then nTotal / nnodes + 1 else njobs

/-- The inner scripts handed to node `nodei`'s outer script:
`sh_tbc[nodei : (nodei + 1) * njobs]` as written in the source. -/
def nodeSlice (shTbc : List String) (njobs nnodes nTotal nodei : Nat) :
    List String :=
  slicePy shTbc nodei ((nodei + 1) * njobsEff njobs nnodes nTotal)

/-- The per-node distribution of inner scripts produced by the node loop
`for nodei in range(nnodes)` of `launch_cov_batches2`. -/
def nodeAssignments (shTbc : List String) (njobs nnodes nTotal : Nat) :
    List (List String) :=
  (List.range nnodes).map (nodeSlice shTbc njobs nnodes nTotal)

/-- The lines of a node-level outer script: for each inner script, an echo,
the sequential `/bin/bash` invocation, and a finish echo. -/
def buildNodeScript (shs : List String) : List String :=
  ["#!/bin/bash"]
    ++ shs.flatMap (fun shi =>
      ["echo Running /bin/bash " ++ shi, "/bin/bash " ++ shi,
       "echo Finished /bin/bash " ++ shi])

/-- Lookup in a Python dict modelled as an insertion-ordered association
list. -/
def dictFind : List (String × α) → String → Option α
  | [], _ => none
  | p :: rest, f => if p.1 = f then some p.2 else dictFind rest f

/-- `cwsp[fname].append(trs)` / `cwsp[fname] = [trs]` of
`get_jobs_with_same_cwsp`: append `v` to the entry at key `f`, creating the
entry at the end (dicts preserve insertion order). -/
def dictAppend : List (String × List α) → String → α → List (String × List α)
  | [], f, v => [(f, [v])]
  | p :: rest, f, v =>
    if p.1 = f then (p.1, p.2 ++ [v]) :: rest
    else p :: dictAppend rest f v

/-- The dict-building loop of `get_jobs_with_same_cwsp`, generic in the
key derivation `k` (in the source, `k` is the workspace path derived from
the four tracers' masks, `cwKey`). -/
def get_jobs_with_same_cwsp (k : α → String) (tasks : List α) :
    List (String × List α) :=
  tasks.foldl (fun m trs => dictAppend m (k trs) trs) []

/-- The key used by `get_jobs_with_same_cwsp` on a task stored as a list
(`cov_tracers` rows are lists): destructure the 4 tracers, look up their
masks, and build the workspace path.  A row of another length makes Python
raise before any grouping, so the grouping is only ever applied to
4-element rows; we return `""` there. -/
def cwKey (cfg : DataCfg) (trs : List String) : String :=
  match trs with
  | [t1, t2, t3, t4] =>
    pathJoin cfg.output
      (cwRelPath (cfg.maskName t1) (cfg.maskName t2) (cfg.maskName t3)
        (cfg.maskName t4))
  | _ => ""

/-- Lexicographic (code-point) comparison of character lists; the `≤` that
numpy's string ordering uses. -/
def leChars : List Char → List Char → Bool
  | [], _ => true
  | _ :: _, [] => false
  | a :: as, b :: bs =>
    if a.toNat < b.toNat then true
    else if b.toNat < a.toNat then false
    else leChars as bs

/-- Lexicographic `≤` on strings, as a proposition. -/
def strLe (a b : String) : Prop := leChars a.data b.data = true

instance : DecidableRel strLe := fun a b =>
  inferInstanceAs (Decidable (leChars a.data b.data = true))

instance : IsTotal String strLe := by
  constructor
  intro s t
  show leChars s.data t.data = true ∨ leChars t.data s.data = true
  generalize s.data = a
  generalize t.data = b
  induction a generalizing b with
  | nil => left; rfl
  | cons x xs ih =>
    cases b with
    | nil => right; rfl
    | cons y ys =>
      by_cases h1 : x.toNat < y.toNat
      · left; simp [leChars, h1]
      · by_cases h2 : y.toNat < x.toNat
        · right; simp [leChars, h1, h2]
        · rcases ih ys with h | h
          · left; simp [leChars, h1, h2, h]
          · right; simp [leChars, h1, h2, h]

instance : IsTrans String strLe := by
  constructor
  intro s t u
  show leChars s.data t.data = true → leChars t.data u.data = true →
    leChars s.data u.data = true
  generalize s.data = a
  generalize t.data = b
  generalize u.data = c
  induction a generalizing b c with
  | nil => intro _ _; rfl
  | cons x xs ih =>
    intro hab hbc
    cases b with
    | nil => simp [leChars] at hab
    | cons y ys =>
      cases c with
      | nil => simp [leChars] at hbc
      | cons z zs =>
        simp only [leChars] at hab hbc ⊢
        by_cases hxy : x.toNat < y.toNat
        · by_cases hyz : y.toNat < z.toNat
          · have : x.toNat < z.toNat := by omega
            simp [this]
          · by_cases hzy : z.toNat < y.toNat
            · simp [hxy, hyz, hzy] at hbc
            · have : x.toNat < z.toNat := by omega
              simp [this]
        · by_cases hyx : y.toNat < x.toNat
          · simp [hxy, hyx] at hab
          · by_cases hyz : y.toNat < z.toNat
            · have : x.toNat < z.toNat := by omega
              simp [this]
            · by_cases hzy : z.toNat < y.toNat
              · simp [hxy, hyz, hzy] at hbc
              · have h1 : ¬ x.toNat < z.toNat := by omega
                have h2 : ¬ z.toNat < x.toNat := by omega
                simp only [hxy, hyx, if_false, if_neg] at hab
                simp only [hyz, hzy, if_false, if_neg] at hbc
                simp [h1, h2, ih ys zs hab hbc]

instance : IsAntisymm String strLe := by
  constructor
  intro s t hst hts
  have key : ∀ a b : List Char, leChars a b = true → leChars b a = true →
      a = b := by
    intro a
    induction a with
    | nil =>
      intro b _ hba
      cases b with
      | nil => rfl
      | cons y ys => simp [leChars] at hba
    | cons x xs ih =>
      intro b hab hba
      cases b with
      | nil => simp [leChars] at hab
      | cons y ys =>
        simp only [leChars] at hab hba
        by_cases hxy : x.toNat < y.toNat
        · have : ¬ y.toNat < x.toNat := by omega
          simp [hxy, this] at hba
        · by_cases hyx : y.toNat < x.toNat
          · simp [hxy, hyx] at hab
          · have hx : x = y := by
              have : Char.ofNat x.toNat = Char.ofNat y.toNat := by
                rw [(by omega : x.toNat = y.toNat)]
              rwa [Char.ofNat_toNat, Char.ofNat_toNat] at this
            simp only [hxy, hyx, if_false, if_neg] at hab hba
            rw [hx, ih ys hab hba]
  have hdata := key s.data t.data hst hts
  cases s
  cases t
  exact congrArg String.mk hdata

/-- Row-wise lexicographic `≤`: rows compare at their first differing
string; numpy's row ordering in `np.unique(..., axis=0)`. -/
def leRows : List String → List String → Bool
  | [], _ => true
  | _ :: _, [] => false
  | a :: as, b :: bs => if a = b then leRows as bs else leChars a.data b.data

/-- Row-wise lexicographic `≤` as a proposition. -/
def rowLe (a b : List String) : Prop := leRows a b = true

instance : DecidableRel rowLe := fun a b =>
  inferInstanceAs (Decidable (leRows a b = true))

/-- Modelled from the spec: `Data.get_cov_trs_names` (class `Data`, not
under `src/`) returns tracer tuples whose "order is canonicalized
(deduplicated via a stable sort)"; we model the canonicalization as the
stable insertion sort of the tuple. -/
def canonTask (trs : List String) : List String :=
  trs.insertionSort strLe

/-- `np.unique(rows, axis=0)`: the rows sorted lexicographically with
exact duplicates removed. -/
def npUniqueRows (l : List (List String)) : List (List String) :=
  (l.insertionSort rowLe).dedup

/-- The covariance task list built by `launch_cov` and
`launch_cov_batches*`: merge the `wsp=True` and `wsp=False` partitions
(each canonicalized, per the spec-modelled `canonTask`) and apply
`np.unique(..., axis=0)`. -/
def covTaskList (raw1 raw2 : List (List String)) : List (List String) :=
  npUniqueRows (raw1.map canonTask ++ raw2.map canonTask)

/-- A power-spectrum task: the tracer pair of `launch_cls`. -/
structure Task2 where
  t1 : String
  t2 : String
deriving DecidableEq, Repr

/-- The job comment `cov_{}_{}_{}_{}` of `launch_cov`. -/
def covComment (t : Task4) : String :=
  "cov_" ++ t.t1 ++ "_" ++ t.t2 ++ "_" ++ t.t3 ++ "_" ++ t.t4

/-- The job comment `cl_{}_{}` of `launch_cls`. -/
def clComment (t : Task2) : String :=
  "cl_" ++ t.t1 ++ "_" ++ t.t2

/-- A task passes all the `continue` filters of the `launch_cov` loop: its
comment is not a substring of the queue snapshot, it is not skip-listed,
and its output is absent or recomputation is forced. -/
def covEligible (cfg : DataCfg) (fs skip : List String) (qjobs : String)
    (t : Task4) : Bool :=
  !hasSeg (covComment t) qjobs
    && !check_skip cfg.bareName skip t.toList
    && !(fs.contains (covOutFname cfg.output t) && !covRecompute cfg)

/-- The submission loop of `launch_cov`: iterate tasks in order, break when
the submission count reaches `njobs` (tracked here as the remaining
budget), `continue` on ineligible tasks, and submit (returning the
submitted tasks in order) otherwise. -/
def launch_cov (cfg : DataCfg) (fs skip : List String) (qjobs : String) :
    List Task4 → Nat → List Task4
  | [], _ => []
  | t :: rest, njobs =>
    if njobs = 0 then []
    else if covEligible cfg fs skip qjobs t then
      t :: launch_cov cfg fs skip qjobs rest (njobs - 1)
    else launch_cov cfg fs skip qjobs rest njobs

/-- The output directory of `launch_cls` (appends `fiducial` when set). -/
def clOutDir (cfg : DataCfg) (fiducial : Bool) : String :=
  if fiducial then pathJoin cfg.output "fiducial" else cfg.output

/-- The Cl output path of `launch_cls`:
`os.path.join(outdir, trreq, comment + '.npz')` where `trreq` abstracts
`data.get_tracers_bare_name_pair(tr1, tr2, '_')` (class `Data`, not under
`src/`). -/
def clOutFname (cfg : DataCfg) (barePair : String → String → String)
    (fiducial : Bool) (t : Task2) : String :=
  pathJoin (pathJoin (clOutDir cfg fiducial) (barePair t.t1 t.t2))
    (clComment t ++ ".npz")

/-- A task passes all the `continue` filters of the `launch_cls` loop. -/
def clEligible (cfg : DataCfg) (barePair : String → String → String)
    (fs skip : List String) (qjobs : String) (fiducial : Bool)
    (t : Task2) : Bool :=
  !hasSeg (clComment t) qjobs
    && !check_skip cfg.bareName skip [t.t1, t.t2]
    && !(fs.contains (clOutFname cfg barePair fiducial t)
          && !(cfg.recomputeCls || cfg.recomputeMcm))

/-- The submission loop of `launch_cls`, analogous to `launch_cov`. -/
def launch_cls (cfg : DataCfg) (barePair : String → String → String)
    (fs skip : List String) (qjobs : String) (fiducial : Bool) :
    List Task2 → Nat → List Task2
  | [], _ => []
  | t :: rest, njobs =>
    if njobs = 0 then []
    else if clEligible cfg barePair fs skip qjobs fiducial t then
      t :: launch_cls cfg barePair fs skip qjobs fiducial rest (njobs - 1)
    else launch_cls cfg barePair fs skip qjobs fiducial rest njobs

/-- A string containing no underscore character. -/
def noUnderscore (s : String) : Bool :=
  s.data.all (fun c => c != '_')

/-- First character of a string (blank for the empty string); used to tell
generated script lines apart. -/
def headCharD (s : String) : Char := s.data.headD ' '

/-! ## Theorems -/

theorem stringDataInj {a b : String} (h : a.data = b.data) : a = b := by
  cases a
  cases b
  exact congrArg String.mk h

theorem check_skip_iff (bare : String → String) (skip : List String) :
    ∀ trs, check_skip bare skip trs = true ↔
      ∃ tr ∈ trs, tr ∈ skip ∨ bare tr ∈ skip := by
  intro trs
  induction trs with
  | nil => simp [check_skip]
  | cons tr rest ih =>
    by_cases h1 : skip.contains tr = true
    · have m1 : tr ∈ skip := by simpa using h1
      simp [check_skip, h1, m1]
    · by_cases h2 : skip.contains (bare tr) = true
      · have m2 : bare tr ∈ skip := by simpa using h2
        simp [check_skip, h1, h2, m2]
      · have m1 : tr ∉ skip := by simpa using h1
        have m2 : bare tr ∉ skip := by simpa using h2
        simp [check_skip, h1, h2, ih, m1, m2]

/-- C8: skip-list exclusion holds for a task iff at least one of its
tracers matches the skip list by full identifier or by bare group name;
in particular a tracer `SURVEY__0` is excluded exactly when `SURVEY__0` or
`SURVEY` appears in the skip list, and a task with no such tracer is not
excluded. -/
theorem claim_C8 (bare : String → String) (skip trs : List String) :
    (check_skip bare skip trs = true ↔
      ∃ tr ∈ trs, tr ∈ skip ∨ bare tr ∈ skip) ∧
    (∀ skip2 : List String,
      check_skip bareNameSpec skip2 ["SURVEY__0"] = true ↔
        "SURVEY__0" ∈ skip2 ∨ "SURVEY" ∈ skip2) := by
  constructor
  · exact check_skip_iff bare skip trs
  · intro skip2
    rw [check_skip_iff]
    have hb : bareNameSpec "SURVEY__0" = "SURVEY" := by decide
    simp [hb]

theorem claim_C8_witness :
    check_skip bareNameSpec ["DELS"] ["DELS__0", "KV450__1"] = true :=
  (claim_C8 bareNameSpec ["DELS"] ["DELS__0", "KV450__1"]).1.mpr
    ⟨"DELS__0", by decide, Or.inr (by decide)⟩

theorem sumMem_append (d : Nat → Option Nat) :
    ∀ l1 l2, sumMem d (l1 ++ l2) =
      (sumMem d l1).bind (fun a => (sumMem d l2).map (a + ·)) := by
  intro l1 l2
  induction l1 with
  | nil => cases h : sumMem d l2 <;> simp [sumMem, h]
  | cons s rest ih =>
    simp only [List.cons_append, sumMem, ih]
    cases h1 : d s <;> cases h2 : sumMem d rest <;>
      cases h3 : sumMem d l2 <;> simp [h1, h2, h3, ih, Nat.add_assoc]

theorem sumMem_mono (d1 d2 : Nat → Option Nat)
    (hmono : ∀ s v, d1 s = some v → ∃ w, d2 s = some w ∧ v ≤ w) :
    ∀ (l : List Nat) (a b : Nat),
      sumMem d1 l = some a → sumMem d2 l = some b → a ≤ b := by
  intro l
  induction l with
  | nil =>
    intro a b ha hb
    simp [sumMem] at ha hb
    omega
  | cons s rest ih =>
    intro a b ha hb
    simp only [sumMem] at ha hb
    split at ha
    · next v m1 hv hm1 =>
      rcases hmono s v hv with ⟨w, hw, hvw⟩
      split at hb
      · next w2 m2 hw2 hm2 =>
        have hww : w2 = w := by rw [hw] at hw2; exact (Option.some.inj hw2).symm
        have := ih m1 m2 hm1 hm2
        have ha' : v + m1 = a := Option.some.inj ha
        have hb' : w2 + m2 = b := Option.some.inj hb
        omega
      · next => exact absurd hb (by simp)
    · next => exact absurd ha (by simp)

/-- C9: memory estimation is additive over tracer lists for a fixed mode,
and for the same tracer list the cls-mode total is at most the cov-mode
total because each per-spin cost in the cls table is at most the
corresponding per-spin cost in the cov table. -/
theorem claim_C9 (spin : String → Nat) (A B trs : List String) :
    (∀ mode, get_mem spin (A ++ B) mode =
      (get_mem spin A mode).bind
        (fun a => (get_mem spin B mode).map (a + ·))) ∧
    (∀ a b, get_mem spin trs "cls" = some a →
      get_mem spin trs "cov" = some b → a ≤ b) ∧
    (∀ dc dv, memTable "cls" = some dc → memTable "cov" = some dv →
      ∀ s v, dc s = some v → ∃ w, dv s = some w ∧ v ≤ w) := by
  have htbl : ∀ s v,
      (if s = 0 then some 16 else if s = 2 then some 25 else none) = some v →
      ∃ w, (if s = 0 then some 16 else if s = 2 then some 47 else none)
        = some w ∧ v ≤ w := by
    intro s v hv
    by_cases h0 : s = 0
    · subst h0
      simp at hv
      exact ⟨16, by simp, by omega⟩
    · by_cases h2 : s = 2
      · subst h2
        simp at hv
        exact ⟨47, by simp, by omega⟩
      · simp [h0, h2] at hv
  refine ⟨?_, ?_, ?_⟩
  · intro mode
    unfold get_mem
    cases h : memTable mode with
    | none => simp
    | some d => simp [sumMem_append d]
  · intro a b ha hb
    have hc : memTable "cls" =
        some (fun s => if s = 0 then some 16 else if s = 2 then some 25
          else none) := by
      simp [memTable]
    have hv : memTable "cov" =
        some (fun s => if s = 0 then some 16 else if s = 2 then some 47
          else none) := by
      simp [memTable]
    rw [get_mem, hc] at ha
    rw [get_mem, hv] at hb
    exact sumMem_mono _ _ htbl (trs.map spin) a b ha hb
  · intro dc dv hc hv s v hdc
    have hc' : memTable "cls" =
        some (fun s => if s = 0 then some 16 else if s = 2 then some 25
          else none) := by
      simp [memTable]
    have hv' : memTable "cov" =
        some (fun s => if s = 0 then some 16 else if s = 2 then some 47
          else none) := by
      simp [memTable]
    rw [hc] at hc'
    rw [hv] at hv'
    have hdc' := Option.some.inj hc'
    have hdv' := Option.some.inj hv'
    subst hdc'
    subst hdv'
    exact htbl s v hdc

theorem claim_C9_witness :
    get_mem (fun tr => if tr = "B__2" then 2 else 0)
        (["A__0"] ++ ["B__2"]) "cov" = some 63 ∧
    (16 : Nat) ≤ 38 :=
  ⟨by decide,
    (claim_C9 (fun _ => 0) [] [] ["A__0"]).2.1 16 16 (by decide) (by decide)
      |>.trans (by omega)⟩

/-- C10: when the target file already exists, `save_wsp` returns
immediately: no `write_to` call is made, no file is removed, and the
function returns successfully, so an existing artifact is never
overwritten. -/
theorem claim_C10 :
    ∀ writeTo : Nat → Option String,
      save_wsp true writeTo = ⟨WspResult.ok, 0, false⟩ :=
  fun _ => rfl

/-- C5 counterexample: a read whose first `read_from` raises a recognized
`Error reading` failure, and whose second attempt would succeed, is *not*
retried: `read_wsp` makes exactly one `read_from` call, removes the file
and re-raises the error, contradicting "the read is retried exactly
once". -/
theorem claim_C5_counterexample :
    read_wsp (fun n => if n = 0 then some "Error reading map" else none) =
      ⟨WspResult.err "Error reading map", 1, true⟩ ∧
    (fun n : Nat => if n = 0 then some "Error reading map" else none) 1
      = none := by
  constructor
  · decide
  · rfl

/-- C5 (amended): on a recognized `Error writing` failure the corrupted
file is deleted and the *write* is retried exactly once, a second write
failure propagating as fatal; on a recognized `Error reading` failure the
file is deleted and the error is re-raised to the caller *without* a
retry. -/
theorem claim_C5 (writeTo readFrom : Nat → Option String) (e e' : String)
    (hw : writeTo 0 = some e) (hmsg : hasSeg "Error writing" e = true)
    (hr : readFrom 0 = some e')
    (hmsg' : hasSeg "Error reading" e' = true) :
    ((writeTo 1 = none →
        save_wsp false writeTo = ⟨WspResult.ok, 2, true⟩) ∧
      (∀ e2, writeTo 1 = some e2 →
        save_wsp false writeTo = ⟨WspResult.err e2, 2, true⟩)) ∧
    read_wsp readFrom = ⟨WspResult.err e', 1, true⟩ := by
  refine ⟨⟨?_, ?_⟩, ?_⟩
  · intro h1
    unfold save_wsp
    rw [hw]
    simp [hmsg, h1]
  · intro e2 h1
    unfold save_wsp
    rw [hw]
    simp [hmsg, h1]
  · unfold read_wsp
    rw [hr]
    simp [hmsg']

theorem claim_C5_witness :
    save_wsp false
        (fun n => if n = 0 then some "Error writing wsp" else
          some "disk full") =
      ⟨WspResult.err "disk full", 2, true⟩ ∧
    read_wsp (fun _ => some "Error reading wsp") =
      ⟨WspResult.err "Error reading wsp", 1, true⟩ :=
  ⟨(claim_C5
      (fun n => if n = 0 then some "Error writing wsp" else
        some "disk full")
      (fun _ => some "Error reading wsp")
      "Error writing wsp" "Error reading wsp" rfl (by decide) rfl
      (by decide)).1.2 "disk full" rfl,
    (claim_C5
      (fun n => if n = 0 then some "Error writing wsp" else
        some "disk full")
      (fun _ => some "Error reading wsp")
      "Error writing wsp" "Error reading wsp" rfl (by decide) rfl
      (by decide)).2⟩

theorem launch_cov_eq_take (cfg : DataCfg) (fs skip : List String)
    (qjobs : String) :
    ∀ (tasks : List Task4) (njobs : Nat),
      launch_cov cfg fs skip qjobs tasks njobs =
        (tasks.filter (covEligible cfg fs skip qjobs)).take njobs := by
  intro tasks
  induction tasks with
  | nil => intro njobs; simp [launch_cov]
  | cons t rest ih =>
    intro njobs
    by_cases h0 : njobs = 0
    · subst h0
      simp [launch_cov]
    · obtain ⟨m, rfl⟩ : ∃ m, njobs = m + 1 := ⟨njobs - 1, by omega⟩
      by_cases he : covEligible cfg fs skip qjobs t = true
      · simp [launch_cov, he, ih]
      · simp [launch_cov, he, ih, List.filter_cons,
          Bool.not_eq_true _ ▸ he]

theorem launch_cls_eq_take (cfg : DataCfg)
    (barePair : String → String → String) (fs skip : List String)
    (qjobs : String) (fiducial : Bool) :
    ∀ (tasks : List Task2) (njobs : Nat),
      launch_cls cfg barePair fs skip qjobs fiducial tasks njobs =
        (tasks.filter
          (clEligible cfg barePair fs skip qjobs fiducial)).take njobs := by
  intro tasks
  induction tasks with
  | nil => intro njobs; simp [launch_cls]
  | cons t rest ih =>
    intro njobs
    by_cases h0 : njobs = 0
    · subst h0
      simp [launch_cls]
    · obtain ⟨m, rfl⟩ : ∃ m, njobs = m + 1 := ⟨njobs - 1, by omega⟩
      by_cases he : clEligible cfg barePair fs skip qjobs fiducial t = true
      · simp [launch_cls, he, ih]
      · simp [launch_cls, he, ih]

/-- C6: both submission loops submit exactly the first `njobs` eligible
tasks in task-list order (the counter advances only on an actual
submission, and iteration stops at the cap), so with more than `njobs`
eligible tasks exactly `njobs` submissions occur. -/
theorem claim_C6 (cfg : DataCfg) (barePair : String → String → String)
    (fs skip : List String) (qjobs : String) (fiducial : Bool)
    (tasks4 : List Task4) (tasks2 : List Task2) (njobs : Nat) :
    (launch_cov cfg fs skip qjobs tasks4 njobs =
      (tasks4.filter (covEligible cfg fs skip qjobs)).take njobs) ∧
    ((tasks4.filter (covEligible cfg fs skip qjobs)).length > njobs →
      (launch_cov cfg fs skip qjobs tasks4 njobs).length = njobs) ∧
    (launch_cls cfg barePair fs skip qjobs fiducial tasks2 njobs =
      (tasks2.filter
        (clEligible cfg barePair fs skip qjobs fiducial)).take njobs) ∧
    ((tasks2.filter
        (clEligible cfg barePair fs skip qjobs fiducial)).length > njobs →
      (launch_cls cfg barePair fs skip qjobs fiducial tasks2 njobs).length
        = njobs) := by
  refine ⟨launch_cov_eq_take cfg fs skip qjobs tasks4 njobs, ?_,
    launch_cls_eq_take cfg barePair fs skip qjobs fiducial tasks2 njobs,
    ?_⟩
  · intro h
    rw [launch_cov_eq_take, List.length_take]
    omega
  · intro h
    rw [launch_cls_eq_take, List.length_take]
    omega

theorem runScript_fst (fails : String → Bool) :
    ∀ script, (runScript script fails).map Prod.fst = script := by
  intro script
  induction script with
  | nil => rfl
  | cons l rest ih => simp [runScript, ih]

theorem headCharD_append (a b : String) (h : a.data ≠ []) :
    headCharD (a ++ b) = headCharD a := by
  unfold headCharD
  rw [String.data_append]
  cases hd : a.data with
  | nil => exact absurd hd h
  | cons c cs => simp [hd]

theorem ne_of_headCharD {a b : String} (h : headCharD a ≠ headCharD b) :
    a ≠ b := fun he => h (by rw [he])

theorem ne_of_data_length {a b : String}
    (h : a.data.length ≠ b.data.length) : a ≠ b := fun he => h (by rw [he])

theorem append_data_ne_nil (a b : String) (h : a.data ≠ []) :
    (a ++ b).data ≠ [] := by
  rw [String.data_append]
  intro hc
  exact h (List.append_eq_nil.mp hc).1

theorem covCmd_headCharD (input : String) (t : Task4) :
    headCharD (covCmd input t) = '/' := by
  have hl : ("/usr/bin/python3 -m xcell.cls.cov ").data =
      '/' :: ("usr/bin/python3 -m xcell.cls.cov ").data := rfl
  simp [covCmd, headCharD, String.data_append, hl]

/-- C2: every generated per-group batch script contains the lock-removal
command after all per-task covariance commands; under bash's default
semantics the lock removal executes in every run, whatever commands fail;
after it only the optional workspace-artifact removal and a log line
remain, and the artifact-removal command is present exactly when the
reclaim-disk option (`remove_cwsp`) is set. -/
theorem claim_C2 (cw input : String) (tasks : List Task4)
    (cmds : List String) (b : Bool) (fails : String → Bool)
    (hcmds : cmds = tasks.map (covCmd input)) :
    ((runScript (buildScript cw cmds b) fails).map Prod.fst =
      buildScript cw cmds b) ∧
    ("rm " ++ cw ++ ".lock") ∈ buildScript cw cmds b ∧
    (∃ pre post, buildScript cw cmds b =
        pre ++ ("rm " ++ cw ++ ".lock") :: post ∧
      (∀ c ∈ cmds, c ∈ pre) ∧
      post = (if b then ["echo Removing " ++ cw, "rm " ++ cw] else []) ++
        ["echo Finished running " ++ cmds.getLastD ""]) ∧
    (("rm " ++ cw) ∈ buildScript cw cmds b ↔ b = true) := by
  have hRm : headCharD ("rm " ++ cw) = 'r' := by
    rw [headCharD_append "rm " cw (by decide)]
    decide
  refine ⟨runScript_fst fails _, ?_, ?_, ?_⟩
  · simp [buildScript]
  · refine ⟨["#!/bin/bash"] ++
      cmds.flatMap (fun covi => ["echo Running " ++ covi, covi]) ++
      ["echo Removing lock file: " ++ cw ++ ".lock"], _, ?_, ?_, rfl⟩
    · simp [buildScript]
    · intro c hc
      have hm : c ∈ cmds.flatMap
          (fun covi => ["echo Running " ++ covi, covi]) :=
        List.mem_flatMap.mpr ⟨c, hc, by simp⟩
      simp [hm]
  · have hne1 : ("rm " ++ cw) ≠ "#!/bin/bash" :=
      ne_of_headCharD (by rw [hRm]; decide)
    have hne2a : ∀ covi : String,
        ("rm " ++ cw) ≠ "echo Running " ++ covi := by
      intro covi
      apply ne_of_headCharD
      rw [hRm, headCharD_append "echo Running " covi (by decide)]
      decide
    have hne2b : ∀ t : Task4, ("rm " ++ cw) ≠ covCmd input t := by
      intro t
      apply ne_of_headCharD
      rw [hRm, covCmd_headCharD]
      decide
    have hne3 : ("rm " ++ cw) ≠ "echo Removing lock file: " ++ cw
        ++ ".lock" := by
      apply ne_of_headCharD
      rw [hRm, headCharD_append _ _
        (append_data_ne_nil "echo Removing lock file: " cw (by decide))]
      rw [headCharD_append "echo Removing lock file: " cw (by decide)]
      decide
    have hne4 : ("rm " ++ cw) ≠ "rm " ++ cw ++ ".lock" := by
      apply ne_of_data_length
      simp [String.data_append]
    have hne5 : ∀ s : String,
        ("rm " ++ cw) ≠ "echo Finished running " ++ s := by
      intro s
      apply ne_of_headCharD
      rw [hRm, headCharD_append "echo Finished running " s (by decide)]
      decide
    constructor
    · intro hmem
      cases b with
      | true => rfl
      | false =>
        exfalso
        subst hcmds
        simp [buildScript, hne1, hne2a, hne3, hne4, hne5] at hmem
        rcases hmem with ⟨t, _, habs⟩
        exact hne2b t habs.symm
    · intro hb
      subst hb
      simp [buildScript]

theorem claim_C2_witness :
    ([covCmd "data.yml" (Task4.mk "A" "B" "A" "B")] =
      [Task4.mk "A" "B" "A" "B"].map (covCmd "data.yml")) ∧
    ("rm " ++ "out/cov/cw__mA__mB__mA__mB.fits" ++ ".lock") ∈
      buildScript "out/cov/cw__mA__mB__mA__mB.fits"
        [covCmd "data.yml" (Task4.mk "A" "B" "A" "B")] true :=
  ⟨by decide,
    (claim_C2 "out/cov/cw__mA__mB__mA__mB.fits" "data.yml"
      [Task4.mk "A" "B" "A" "B"]
      [covCmd "data.yml" (Task4.mk "A" "B" "A" "B")] true
      (fun _ => true) (by decide)).2.1⟩

theorem claim_C6_witness :
    (([Task4.mk "A" "A" "A" "A", Task4.mk "B" "B" "B" "B"].filter
      (covEligible
        (DataCfg.mk "out" false false false false id id (fun _ => 0))
        [] [] "")).length > 1) ∧
    (launch_cov
      (DataCfg.mk "out" false false false false id id (fun _ => 0))
      [] [] "" [Task4.mk "A" "A" "A" "A", Task4.mk "B" "B" "B" "B"]
      1).length = 1 :=
  ⟨by decide,
    (claim_C6 (DataCfg.mk "out" false false false false id id (fun _ => 0))
      (fun a _ => a) [] [] "" false
      [Task4.mk "A" "A" "A" "A", Task4.mk "B" "B" "B" "B"] [] 1).2.1
      (by decide)⟩

theorem groupStep_some (cfg : DataCfg) (fs skip : List String)
    (input : String) (g : String × List Task4) (s : String × List String)
    (hs : groupStep cfg fs skip input g = some s) :
    s.1 = g.1 ∧ fs.contains (g.1 ++ ".lock") = false ∧
      s.2 = covsTbc cfg fs skip input g.2 ∧ s.2 ≠ [] := by
  unfold groupStep at hs
  by_cases h1 : fs.contains (g.1 ++ ".lock") = true
  · have h1m : g.1 ++ ".lock" ∈ fs := by simpa using h1
    simp [h1m] at hs
  · have h1' : fs.contains (g.1 ++ ".lock") = false := by
      simpa using h1
    simp only [h1', Bool.false_eq_true, if_false] at hs
    by_cases h2 : covsTbc cfg fs skip input g.2 = []
    · simp [h2] at hs
    · simp only [h2, if_false] at hs
      cases hs
      exact ⟨rfl, h1', rfl, h2⟩

theorem selectGroups_locked_never_emits (cfg : DataCfg)
    (skip : List String) (input : String) :
    ∀ (groups : List (String × List Task4)) (fs : List String)
      (cap : Nat) (cw : String) (cmds : List String),
      fs.contains (cw ++ ".lock") = true →
      (cw, cmds) ∈ selectGroups cfg skip input fs cap groups → False := by
  intro groups
  induction groups with
  | nil =>
    intro fs cap cw cmds _ hm
    simp [selectGroups] at hm
  | cons g rest ih =>
    intro fs cap cw cmds h hm
    by_cases hc : cap = 0
    · subst hc
      simp [selectGroups] at hm
    · rw [selectGroups] at hm
      simp only [hc, if_false] at hm
      cases hgs : groupStep cfg fs skip input g with
      | none =>
        rw [hgs] at hm
        exact ih fs cap cw cmds h hm
      | some s =>
        rw [hgs] at hm
        rcases List.mem_cons.mp hm with heq | htail
        · rcases groupStep_some cfg fs skip input g s hgs with
            ⟨hs1, hlock, _, _⟩
          have hcw : cw = g.1 := by rw [← hs1, ← heq]
          rw [hcw] at h
          rw [h] at hlock
          exact absurd hlock (by decide)
        · have h' : (fs ++ [g.1 ++ ".lock"]).contains (cw ++ ".lock")
              = true := by
            have hm : cw ++ ".lock" ∈ fs := by simpa using h
            simp [hm]
          exact ih (fs ++ [g.1 ++ ".lock"]) (cap - 1) cw cmds h' htail

theorem covsTbc_eq_nil_iff (cfg : DataCfg) (fs skip : List String)
    (input : String) (L : List Task4) :
    covsTbc cfg fs skip input L = [] ↔
      ∀ t ∈ L, covTaskDropped cfg fs skip t = true := by
  simp [covsTbc]

/-- C1: in `launch_cov_batches2`, a task is dropped from a group's script
exactly when its output exists with recomputation not forced or it matches
the skip list; a pre-existing lock file makes the whole group emit nothing
(for the entire invocation); a script is emitted (and, with it, the lock
created) exactly when no lock exists and at least one task survives the
two per-task signals. -/
theorem claim_C1 (cfg : DataCfg) (fs skip : List String)
    (input cw : String) (L : List Task4) :
    (∀ t : Task4, covTaskDropped cfg fs skip t = true ↔
      (fs.contains (covOutFname cfg.output t) = true ∧
        covRecompute cfg = false) ∨
      check_skip cfg.bareName skip t.toList = true) ∧
    (fs.contains (cw ++ ".lock") = true →
      groupStep cfg fs skip input (cw, L) = none) ∧
    (groupStep cfg fs skip input (cw, L) = none ↔
      fs.contains (cw ++ ".lock") = true ∨
        ∀ t ∈ L, covTaskDropped cfg fs skip t = true) ∧
    (∀ s, groupStep cfg fs skip input (cw, L) = some s →
      s.1 = cw ∧ fs.contains (cw ++ ".lock") = false ∧
      s.2 = (L.filter fun t => !covTaskDropped cfg fs skip t).map
        (covCmd input) ∧ s.2 ≠ []) ∧
    (fs.contains (cw ++ ".lock") = true →
      ∀ (cap : Nat) (groups : List (String × List Task4))
        (cmds : List String),
        (cw, cmds) ∉ selectGroups cfg skip input fs cap groups) := by
  refine ⟨?_, ?_, ?_, ?_, ?_⟩
  · intro t
    simp only [covTaskDropped, Bool.or_eq_true, Bool.and_eq_true,
      Bool.not_eq_true']
  · intro h
    have hm : cw ++ ".lock" ∈ fs := by simpa using h
    simp [groupStep, hm]
  · by_cases h1 : fs.contains (cw ++ ".lock") = true
    · have hm : cw ++ ".lock" ∈ fs := by simpa using h1
      simp [groupStep, hm, h1]
    · have hm' : cw ++ ".lock" ∉ fs := by simpa using h1
      by_cases h2 : covsTbc cfg fs skip input L = []
      · simp only [groupStep, hm', h2]
        simp only [if_true, if_pos, ite_self]
        constructor
        · intro _
          exact Or.inr ((covsTbc_eq_nil_iff cfg fs skip input L).mp h2)
        · intro _
          simp [hm', h2]
      · simp [groupStep, hm', h2, h1,
          ← covsTbc_eq_nil_iff cfg fs skip input L]
  · intro s hs
    rcases groupStep_some cfg fs skip input (cw, L) s hs with
      ⟨ha, hb, hc, hd⟩
    exact ⟨ha, hb, hc.trans rfl, hd⟩
  · intro h cap groups cmds hmem
    exact selectGroups_locked_never_emits cfg skip input groups fs cap cw
      cmds h hmem

theorem claim_C1_witness :
    groupStep (DataCfg.mk "out" false false false false id id (fun _ => 0))
      ["out/cov/cw__A__A__A__A.fits.lock"] [] "in"
      ("out/cov/cw__A__A__A__A.fits", [Task4.mk "A" "A" "A" "A"]) = none :=
  (claim_C1 (DataCfg.mk "out" false false false false id id (fun _ => 0))
    ["out/cov/cw__A__A__A__A.fits.lock"] [] "in"
    "out/cov/cw__A__A__A__A.fits" [Task4.mk "A" "A" "A" "A"]).2.1
    (by decide)

/-- C7: with 4 selected per-group scripts, `njobs = 2` and `nnodes = 2`,
the slice `sh_tbc[nodei : (nodei + 1) * njobs]` of the node loop assigns
`[s0, s1]` to node 0 and `[s1, s2, s3]` to node 1: the chunks overlap and
the inner script `s1` is invoked by both node-level outer scripts, so the
distribution is not a partition into contiguous chunks with each inner
script invoked by exactly one node. -/
theorem claim_C7_bug :
    nodeAssignments ["s0", "s1", "s2", "s3"] 2 2 4 =
      [["s0", "s1"], ["s1", "s2", "s3"]] ∧
    "/bin/bash s1" ∈ buildNodeScript ["s0", "s1"] ∧
    "/bin/bash s1" ∈ buildNodeScript ["s1", "s2", "s3"] := by
  decide

theorem sepSplit :
    ∀ a b x y : List Char,
      a.all (fun c => c != '_') = true →
      b.all (fun c => c != '_') = true →
      a ++ '_' :: '_' :: x = b ++ '_' :: '_' :: y → a = b ∧ x = y := by
  intro a
  induction a with
  | nil =>
    intro b x y _ hb heq
    cases b with
    | nil =>
      simp only [List.nil_append, List.cons.injEq, true_and] at heq
      exact ⟨rfl, heq⟩
    | cons d bs =>
      exfalso
      simp only [List.nil_append, List.cons_append, List.cons.injEq]
        at heq
      rw [List.all_cons, Bool.and_eq_true] at hb
      have hd : d ≠ '_' := by simpa using hb.1
      exact hd heq.1.symm
  | cons c as ih =>
    intro b x y ha hb heq
    cases b with
    | nil =>
      exfalso
      simp only [List.nil_append, List.cons_append, List.cons.injEq]
        at heq
      rw [List.all_cons, Bool.and_eq_true] at ha
      have hc : c ≠ '_' := by simpa using ha.1
      exact hc heq.1
    | cons d bs =>
      simp only [List.cons_append, List.cons.injEq] at heq
      rw [List.all_cons, Bool.and_eq_true] at ha hb
      rcases ih bs x y ha.2 hb.2 heq.2 with ⟨hab, hxy⟩
      exact ⟨by rw [heq.1, hab], hxy⟩

theorem pathJoin_inj (a b1 b2 : String)
    (h1 : startsWithSlash b1 = false) (h2 : startsWithSlash b2 = false)
    (he : pathJoin a b1 = pathJoin a b2) : b1 = b2 := by
  unfold pathJoin at he
  rw [h1, h2] at he
  simp only [Bool.false_eq_true, if_false] at he
  by_cases ha : a = ""
  · simpa [ha] using he
  · simp only [ha, if_false] at he
    by_cases hs : endsWithSlash a = true
    · rw [hs] at he
      simp only [if_true] at he
      have hd := congrArg String.data he
      rw [String.data_append, String.data_append] at hd
      exact stringDataInj (List.append_cancel_left hd)
    · rw [Bool.not_eq_true] at hs
      rw [hs] at he
      simp only [Bool.false_eq_true, if_false] at he
      have hd := congrArg String.data he
      rw [String.data_append, String.data_append] at hd
      exact stringDataInj (List.append_cancel_left hd)

theorem startsWithSlash_cwRelPath (m1 m2 m3 m4 : String) :
    startsWithSlash (cwRelPath m1 m2 m3 m4) = false := by
  have hP : ("cov/cw__" : String).data =
      'c' :: ("ov/cw__" : String).data := rfl
  unfold startsWithSlash cwRelPath
  simp [String.data_append, hP]

theorem cwRelPath_inj (m1 m2 m3 m4 n1 n2 n3 n4 : String)
    (hm1 : noUnderscore m1 = true) (hm2 : noUnderscore m2 = true)
    (hm3 : noUnderscore m3 = true) (hn1 : noUnderscore n1 = true)
    (hn2 : noUnderscore n2 = true) (hn3 : noUnderscore n3 = true)
    (he : cwRelPath m1 m2 m3 m4 = cwRelPath n1 n2 n3 n4) :
    m1 = n1 ∧ m2 = n2 ∧ m3 = n3 ∧ m4 = n4 := by
  have hS : ("__" : String).data = ['_', '_'] := rfl
  have hd := congrArg String.data he
  unfold cwRelPath at hd
  simp only [String.data_append, List.append_assoc, hS,
    List.cons_append, List.nil_append] at hd
  simp only [List.cons.injEq, true_and] at hd
  have h1 := hd
  rcases sepSplit m1.data n1.data _ _
    (by simpa [noUnderscore] using hm1)
    (by simpa [noUnderscore] using hn1) h1 with ⟨e1, h2⟩
  rcases sepSplit m2.data n2.data _ _
    (by simpa [noUnderscore] using hm2)
    (by simpa [noUnderscore] using hn2) h2 with ⟨e2, h3⟩
  rcases sepSplit m3.data n3.data _ _
    (by simpa [noUnderscore] using hm3)
    (by simpa [noUnderscore] using hn3) h3 with ⟨e3, h4⟩
  exact ⟨stringDataInj e1, stringDataInj e2, stringDataInj e3,
    stringDataInj (List.append_cancel_right h4)⟩

/-- C3 counterexample: with `output = "out"` and mask names read off the
tracers directly, the tasks `(a_, c, m, m)` and `(a, _c, m, m)` have
different mask 4-tuples in task order, yet `get_jobs_with_same_cwsp`
derives the same workspace artifact path for both, because the `__`
separator does not delimit unambiguously once a mask name contains an
underscore. -/
theorem claim_C3_counterexample :
    cwFname (DataCfg.mk "out" false false false false id id (fun _ => 0))
        (Task4.mk "a_" "c" "m" "m") =
      cwFname (DataCfg.mk "out" false false false false id id (fun _ => 0))
        (Task4.mk "a" "_c" "m" "m") ∧
    (("a_" : String), ("c" : String), ("m" : String), ("m" : String)) ≠
      (("a" : String), ("_c" : String), ("m" : String), ("m" : String)) :=
  ⟨by decide, by decide⟩

/-- C3 (amended): the grouping engine assigns two covariance tasks the
same workspace path `cov/cw__{m1}__{m2}__{m3}__{m4}.fits` iff their four
mask names, taken in task order, coincide — provided mask names contain no
underscore character (with underscores, distinct mask tuples can collide,
see the counterexample). -/
theorem claim_C3 (cfg : DataCfg) (t t' : Task4)
    (h1 : noUnderscore (cfg.maskName t.t1) = true)
    (h2 : noUnderscore (cfg.maskName t.t2) = true)
    (h3 : noUnderscore (cfg.maskName t.t3) = true)
    (h4 : noUnderscore (cfg.maskName t.t4) = true)
    (h5 : noUnderscore (cfg.maskName t'.t1) = true)
    (h6 : noUnderscore (cfg.maskName t'.t2) = true)
    (h7 : noUnderscore (cfg.maskName t'.t3) = true)
    (h8 : noUnderscore (cfg.maskName t'.t4) = true) :
    cwFname cfg t = cwFname cfg t' ↔
      (cfg.maskName t.t1, cfg.maskName t.t2, cfg.maskName t.t3,
        cfg.maskName t.t4) =
      (cfg.maskName t'.t1, cfg.maskName t'.t2, cfg.maskName t'.t3,
        cfg.maskName t'.t4) := by
  constructor
  · intro he
    unfold cwFname at he
    have hrel := pathJoin_inj cfg.output _ _
      (startsWithSlash_cwRelPath _ _ _ _)
      (startsWithSlash_cwRelPath _ _ _ _) he
    rcases cwRelPath_inj _ _ _ _ _ _ _ _ h1 h2 h3 h5 h6 h7 hrel with
      ⟨e1, e2, e3, e4⟩
    rw [e1, e2, e3, e4]
  · intro he
    have e1 : cfg.maskName t.t1 = cfg.maskName t'.t1 :=
      congrArg Prod.fst he
    have e2 : cfg.maskName t.t2 = cfg.maskName t'.t2 :=
      congrArg (fun p => p.2.1) he
    have e3 : cfg.maskName t.t3 = cfg.maskName t'.t3 :=
      congrArg (fun p => p.2.2.1) he
    have e4 : cfg.maskName t.t4 = cfg.maskName t'.t4 :=
      congrArg (fun p => p.2.2.2) he
    unfold cwFname
    rw [e1, e2, e3, e4]

theorem claim_C3_witness :
    noUnderscore ((DataCfg.mk "out" false false false false
        (fun tr => if tr = "A2" then "mA" else if tr = "A1" then "mA"
          else "mB") id (fun _ => 0)).maskName "A1") = true ∧
    cwFname (DataCfg.mk "out" false false false false
        (fun tr => if tr = "A2" then "mA" else if tr = "A1" then "mA"
          else "mB") id (fun _ => 0)) (Task4.mk "A1" "B" "A1" "B") =
      cwFname (DataCfg.mk "out" false false false false
        (fun tr => if tr = "A2" then "mA" else if tr = "A1" then "mA"
          else "mB") id (fun _ => 0)) (Task4.mk "A2" "B" "A2" "B") :=
  ⟨by decide,
    (claim_C3 (DataCfg.mk "out" false false false false
        (fun tr => if tr = "A2" then "mA" else if tr = "A1" then "mA"
          else "mB") id (fun _ => 0))
      (Task4.mk "A1" "B" "A1" "B") (Task4.mk "A2" "B" "A2" "B")
      (by decide) (by decide) (by decide) (by decide) (by decide)
      (by decide) (by decide) (by decide)).mpr (by decide)⟩

theorem canonTask_eq_of_perm {l1 l2 : List String} (h : l1.Perm l2) :
    canonTask l1 = canonTask l2 :=
  List.eq_of_perm_of_sorted
    ((List.perm_insertionSort strLe l1).trans
      (h.trans (List.perm_insertionSort strLe l2).symm))
    (List.sorted_insertionSort strLe l1)
    (List.sorted_insertionSort strLe l2)

theorem npUniqueRows_mem (l : List (List String)) (x : List String) :
    x ∈ npUniqueRows l ↔ x ∈ l := by
  rw [npUniqueRows, List.mem_dedup]
  exact (List.perm_insertionSort rowLe l).mem_iff

theorem npUniqueRows_nodup (l : List (List String)) :
    (npUniqueRows l).Nodup :=
  List.nodup_dedup _

theorem dictFind_dictAppend (m : List (String × List α)) (g f : String)
    (v : α) :
    dictFind (dictAppend m g v) f =
      if f = g then some ((dictFind m g).getD [] ++ [v])
      else dictFind m f := by
  induction m with
  | nil =>
    by_cases hfg : f = g
    · simp [dictAppend, dictFind, hfg]
    · simp [dictAppend, dictFind, hfg, Ne.symm hfg]
  | cons p rest ih =>
    by_cases hpg : p.1 = g
    · by_cases hfg : f = g
      · simp [dictAppend, dictFind, hpg, hfg]
      · have hpf : ¬p.1 = f := by rw [hpg]; exact fun h => hfg h.symm
        have hgf : ¬g = f := fun h => hfg h.symm
        simp [dictAppend, dictFind, hpg, hfg, hpf, hgf]
    · by_cases hpf : p.1 = f
      · have hfg : ¬f = g := by rw [← hpf]; exact hpg
        simp [dictAppend, dictFind, hpg, hpf, hfg]
      · simp [dictAppend, dictFind, hpg, hpf, ih]

theorem dictFind_foldl (k : α → String) [DecidableEq α] :
    ∀ (tasks : List α) (m : List (String × List α)) (f : String),
      dictFind
          (tasks.foldl (fun acc trs => dictAppend acc (k trs) trs) m) f =
        match dictFind m f with
        | some L => some (L ++ tasks.filter (fun t => k t == f))
        | none =>
          if tasks.filter (fun t => k t == f) = [] then none
          else some (tasks.filter (fun t => k t == f)) := by
  intro tasks
  induction tasks with
  | nil =>
    intro m f
    cases h : dictFind m f <;> simp [h]
  | cons t rest ih =>
    intro m f
    rw [List.foldl_cons, ih (dictAppend m (k t) t) f,
      dictFind_dictAppend m (k t) f t]
    by_cases hf : k t = f
    · have hbeq : (k t == f) = true := by simp [hf]
      rw [if_pos hf.symm]
      cases h : dictFind m f with
      | none =>
        have hg : dictFind m (k t) = none := by rw [hf]; exact h
        simp [h, hg, List.filter_cons, hbeq]
      | some L =>
        have hg : dictFind m (k t) = some L := by rw [hf]; exact h
        simp [h, hg, List.filter_cons, hbeq]
    · have hbeq : (k t == f) = false := by simp [hf]
      rw [if_neg (fun h => hf h.symm)]
      cases h : dictFind m f <;> simp [h, List.filter_cons, hbeq]

theorem get_jobs_entry_key (k : α → String) (tasks : List α) :
    ∀ p ∈ get_jobs_with_same_cwsp k tasks, ∀ r ∈ p.2, k r = p.1 := by
  have step : ∀ (m : List (String × List α)) (t : α),
      (∀ p ∈ m, ∀ r ∈ p.2, k r = p.1) →
      ∀ p ∈ dictAppend m (k t) t, ∀ r ∈ p.2, k r = p.1 := by
    intro m t
    induction m with
    | nil =>
      intro _ p hp r hr
      simp [dictAppend] at hp
      subst hp
      simp at hr
      rw [hr]
    | cons q rest ih =>
      intro hm p hp r hr
      by_cases hq : q.1 = k t
      · simp only [dictAppend] at hp
        rw [if_pos hq] at hp
        rcases List.mem_cons.mp hp with hp1 | hp2
        · subst hp1
          show k r = q.1
          rcases List.mem_append.mp hr with hr1 | hr2
          · exact hm q (by simp) r hr1
          · simp at hr2
            rw [hr2]
            exact hq.symm
        · exact hm p (by simp [hp2]) r hr
      · simp only [dictAppend] at hp
        rw [if_neg hq] at hp
        rcases List.mem_cons.mp hp with hp1 | hp2
        · subst hp1
          exact hm p (by simp) r hr
        · exact ih (fun p hp => hm p (by simp [hp])) p hp2 r hr
  suffices h : ∀ (tasks : List α) (m : List (String × List α)),
      (∀ p ∈ m, ∀ r ∈ p.2, k r = p.1) →
      ∀ p ∈ tasks.foldl (fun acc trs => dictAppend acc (k trs) trs) m,
        ∀ r ∈ p.2, k r = p.1 by
    exact h tasks [] (by simp)
  intro tasks
  induction tasks with
  | nil => intro m hm; simpa using hm
  | cons t rest ih =>
    intro m hm
    rw [List.foldl_cons]
    exact ih (dictAppend m (k t) t) (step m t hm)

/-- C4: two covariance tasks that are permutations of each other
canonicalize to the same tuple; the merged, `np.unique`-deduplicated task
list contains that tuple (with no duplicates), and the grouping engine
places it in exactly one workspace group: any group containing it has the
task's own workspace path as key, and the lookup at that key finds it. -/
theorem claim_C4 (raw1 raw2 : List (List String)) (t t' : List String)
    (cfg : DataCfg) (h1 : t ∈ raw1 ++ raw2) (h2 : t' ∈ raw1 ++ raw2)
    (hp : t.Perm t') :
    canonTask t = canonTask t' ∧
    canonTask t ∈ covTaskList raw1 raw2 ∧
    (covTaskList raw1 raw2).Nodup ∧
    (∀ f L,
      (f, L) ∈ get_jobs_with_same_cwsp (cwKey cfg)
        (covTaskList raw1 raw2) →
      canonTask t ∈ L → f = cwKey cfg (canonTask t)) ∧
    (∃ L,
      dictFind
          (get_jobs_with_same_cwsp (cwKey cfg) (covTaskList raw1 raw2))
          (cwKey cfg (canonTask t)) = some L ∧
      canonTask t ∈ L ∧ L.Nodup) := by
  have hmem : canonTask t ∈ covTaskList raw1 raw2 := by
    rw [covTaskList, npUniqueRows_mem]
    rcases List.mem_append.mp h1 with h | h
    · exact List.mem_append.mpr (Or.inl (List.mem_map_of_mem canonTask h))
    · exact List.mem_append.mpr (Or.inr (List.mem_map_of_mem canonTask h))
  have hnodup : (covTaskList raw1 raw2).Nodup := npUniqueRows_nodup _
  refine ⟨canonTask_eq_of_perm hp, hmem, hnodup, ?_, ?_⟩
  · intro f L hin hct
    exact (get_jobs_entry_key (cwKey cfg) (covTaskList raw1 raw2)
      (f, L) hin (canonTask t) hct).symm
  · have hfind := dictFind_foldl (cwKey cfg) (covTaskList raw1 raw2) []
      (cwKey cfg (canonTask t))
    have hnil : dictFind ([] : List (String × List (List String)))
        (cwKey cfg (canonTask t)) = none := rfl
    rw [hnil] at hfind
    have hctf : canonTask t ∈ (covTaskList raw1 raw2).filter
        (fun r => cwKey cfg r == cwKey cfg (canonTask t)) := by
      rw [List.mem_filter]
      exact ⟨hmem, by simp⟩
    have hne : (covTaskList raw1 raw2).filter
        (fun r => cwKey cfg r == cwKey cfg (canonTask t)) ≠ [] :=
      List.ne_nil_of_mem hctf
    rw [if_neg hne] at hfind
    exact ⟨_, hfind, hctf, hnodup.filter _⟩

theorem claim_C4_witness :
    canonTask ["A", "B", "A", "B"] = canonTask ["B", "A", "B", "A"] ∧
    (covTaskList [["A", "B", "A", "B"]] [["B", "A", "B", "A"]]).Nodup :=
  ⟨(claim_C4 [["A", "B", "A", "B"]] [["B", "A", "B", "A"]]
      ["A", "B", "A", "B"] ["B", "A", "B", "A"]
      (DataCfg.mk "out" false false false false id id (fun _ => 0))
      (by decide) (by decide) (by decide)).1,
    (claim_C4 [["A", "B", "A", "B"]] [["B", "A", "B", "A"]]
      ["A", "B", "A", "B"] ["B", "A", "B", "A"]
      (DataCfg.mk "out" false false false false id id (fun _ => 0))
      (by decide) (by decide) (by decide)).2.2.1⟩

end XCell
